import Mathlib

/-!
Shallow embedding of the ES-Agent-Replan-Sim numeric core:
the Earned Schedule calculator (static/js/es_calculator.js) and the
simulation driver (the ESSimulation class).  JavaScript numbers are
modelled by exact rationals; the `toFixed(2)` display rounding of the
source becomes an explicit rounding function on rationals; JavaScript's
`Infinity` sentinel becomes an explicit extended-number type.
-/

namespace ESReplan

/-- The epsilon used by the calculator's comparisons (1e-9 in the source). -/
def eps : ℚ := 1 / 1000000000

/-- The scanning loop of `calculateEarnedSchedule`: index of the first entry
of `pvCum` that strictly exceeds `evCum` (the loop's `break` point), if any. -/
def firstExceedIdx (evCum : ℚ) : List ℚ → Option ℕ
  | [] => none
  | p :: rest => if evCum < p then some 0 else (firstExceedIdx evCum rest).map (· + 1)

/-- The tail of `calculateEarnedSchedule` once the period index `C ≥ 0` has been
fixed by the scanning loop: the boundary branch returning `C + 1`, and the
interpolation branch with the denominator guard. -/
def esFrom (evCum : ℚ) (pvCum : List ℚ) (C : ℕ) : ℚ :=
  if C = pvCum.length - 1 ∨ |pvCum.getD C 0 - evCum| < eps then (C : ℚ) + 1
  else
    ((C : ℚ) + 1) +
      (if eps < |pvCum.getD (C + 1) 0 - pvCum.getD C 0| then
        (evCum - pvCum.getD C 0) / (pvCum.getD (C + 1) 0 - pvCum.getD C 0)
      else 0)

/-- `ESCalculator.calculateEarnedSchedule(evCum, pvCum)`.  The source's loop
leaves `C = null` on an empty series, `C = i - 1` when it breaks at index `i`,
and `C = length - 1` when the loop completes without breaking; `C = null` and
`C < 0` both return 0. -/
def calculateEarnedSchedule (evCum : ℚ) (pvCum : List ℚ) : ℚ :=
  match firstExceedIdx evCum pvCum with
  | some 0 => 0
  | some (i + 1) => esFrom evCum pvCum i
  | none => if pvCum.isEmpty then 0 else esFrom evCum pvCum (pvCum.length - 1)

/-- A JavaScript number that may be an infinity sentinel
(`Number.POSITIVE_INFINITY` and its negation). -/
inductive XNum where
  | num : ℚ → XNum
  | posInf : XNum
  | negInf : XNum
  deriving DecidableEq, Repr

/-- `x.toFixed(2)` read back as a number: rounding to 2 decimal places, halves
toward positive infinity (ECMAScript's `toFixed` picks the larger candidate). -/
def toFixed2 (q : ℚ) : ℚ := (⌊q * 100 + 1 / 2⌋ : ℚ) / 100

/-- `toFixed(2)` on a possibly-infinite value (`Infinity.toFixed(2)` renders
the sentinel unchanged). -/
def toFixed2X : XNum → XNum
  | .num q => .num (toFixed2 q)
  | .posInf => .posInf
  | .negInf => .negInf

/-- The metrics record produced by `calculateMetrics`: the three core fields
are always present, the milestone and re-plan fields only when the
corresponding optional input was supplied. -/
structure Metrics where
  ES : ℚ
  SV_t : ℚ
  SPI_t : ℚ
  IEAC_t_M : Option XNum
  F_SV_t : Option XNum
  TSPI_M : Option XNum
  D_pre : Option ℚ
  PD_rem : Option ℚ
  SPI_t_rem : Option ℚ
  IEAC_t_RP : Option XNum
  deriving DecidableEq, Repr

/-- The local metric values computed by `ESCalculator.calculateMetrics` before
they are written into the results object through `toFixed(2)`:
the consts `ES`, `SV_t`, `SPI_t`, `IEAC_t_M`, `F_SV_t`, `TSPI_M`, `D_pre`,
`PD_rem`, `SPI_t_rem`, `IEAC_t_RP` of the source, at full precision. -/
def calculateMetricsRaw (pvValues evValues : List ℚ) (actualTime : ℚ)
    (milestoneDuration : Option ℚ) (replanTime : Option ℕ) : Metrics :=
  let ES := calculateEarnedSchedule (evValues.getD (evValues.length - 1) 0) pvValues
  let SV_t := ES - actualTime
  let SPI_t : ℚ := if 0 < actualTime then ES / actualTime else 1
  let milestone : Option XNum × Option XNum × Option XNum :=
    match milestoneDuration with
    | none => (none, none, none)
    | some md =>
      let IEAC_t_M : XNum := if 0 < SPI_t then .num (md / SPI_t) else .posInf
      let F_SV_t : XNum :=
        match IEAC_t_M with
        | .num q => .num (md - q)
        | .posInf => .negInf
        | .negInf => .posInf
      let TSPI_M : XNum := if md ≠ actualTime then .num ((md - ES) / (md - actualTime)) else .posInf
      (some IEAC_t_M, some F_SV_t, some TSPI_M)
  let replan : Option ℚ × Option ℚ × Option ℚ × Option XNum :=
    match replanTime with
    | none => (none, none, none, none)
    | some rp =>
      let D_pre : ℚ := rp
      let PD_rem : ℚ := (pvValues.length : ℚ) - rp
      let SPI_t_rem : ℚ :=
        if (rp : ℚ) < actualTime then
          let postReplanPV := pvValues.drop rp
          let postReplanEV := evValues.drop rp
          let postReplanAT := actualTime - rp
          if 0 < postReplanAT ∧ 0 < postReplanEV.length then
            calculateEarnedSchedule (postReplanEV.getD (postReplanEV.length - 1) 0) postReplanPV
              / postReplanAT
          else SPI_t
        else SPI_t
      let IEAC_t_RP : XNum := if 0 < SPI_t_rem then .num (D_pre + PD_rem / SPI_t_rem) else .posInf
      (some D_pre, some PD_rem, some SPI_t_rem, some IEAC_t_RP)
  { ES := ES, SV_t := SV_t, SPI_t := SPI_t
    IEAC_t_M := milestone.1, F_SV_t := milestone.2.1, TSPI_M := milestone.2.2
    D_pre := replan.1, PD_rem := replan.2.1, SPI_t_rem := replan.2.2.1
    IEAC_t_RP := replan.2.2.2 }

/-- The assignments `results.X = X.toFixed(2)` of the source: every field of
the results object is the 2-decimal rounding of the computed metric. -/
def roundMetrics (m : Metrics) : Metrics where
  ES := toFixed2 m.ES
  SV_t := toFixed2 m.SV_t
  SPI_t := toFixed2 m.SPI_t
  IEAC_t_M := m.IEAC_t_M.map toFixed2X
  F_SV_t := m.F_SV_t.map toFixed2X
  TSPI_M := m.TSPI_M.map toFixed2X
  D_pre := m.D_pre.map toFixed2
  PD_rem := m.PD_rem.map toFixed2
  SPI_t_rem := m.SPI_t_rem.map toFixed2
  IEAC_t_RP := m.IEAC_t_RP.map toFixed2X

/-- `ESCalculator.calculateMetrics(pvValues, evValues, actualTime,
milestoneDuration, replanTime)`: the computed metric values written into the
results object with 2-decimal rounding. -/
def calculateMetrics (pvValues evValues : List ℚ) (actualTime : ℚ)
    (milestoneDuration : Option ℚ) (replanTime : Option ℕ) : Metrics :=
  roundMetrics (calculateMetricsRaw pvValues evValues actualTime milestoneDuration replanTime)

/-- The three simulation scenarios of the driver. -/
inductive Scenario where
  | recovery : Scenario
  | slippage : Scenario
  | maintain : Scenario
  deriving DecidableEq, Repr

/-- The mutable fields of `ESSimulation` that the numeric core touches
(DOM elements, progress-bar text and the autoplay timer are presentation
state and are outside the embedding). -/
structure SimState where
  currentStep : ℕ
  maxSteps : ℕ
  scenario : Scenario
  currentPV : List ℚ
  currentEV : List ℚ
  currentAT : ℕ
  milestoneDuration : ℚ
  replanTime : Option ℕ
  currentMetrics : Metrics
  resultsPeriods : List ℕ
  resultsPV : List ℚ
  resultsEV : List ℚ
  resultsMetrics : List Metrics
  deriving DecidableEq, Repr

/-- `ESSimulation.initSimulation(pvValues, evValues, actualTime,
milestoneDuration, steps, scenario, replanEnabled)`. -/
def initSimulation (pvValues evValues : List ℚ) (actualTime : ℕ) (milestoneDuration : ℚ)
    (steps : ℕ) (scenario : Scenario) (replanEnabled : Bool) : SimState :=
  let replanTime : Option ℕ := if replanEnabled then some actualTime else none
  { currentStep := 0
    maxSteps := steps
    scenario := scenario
    currentPV := pvValues
    currentEV := evValues
    currentAT := actualTime
    milestoneDuration := milestoneDuration
    replanTime := replanTime
    currentMetrics :=
      calculateMetrics pvValues evValues (actualTime : ℚ) (some milestoneDuration) replanTime
    resultsPeriods := []
    resultsPV := []
    resultsEV := []
    resultsMetrics := [] }

/-- `ESSimulation.runStep()`: a no-op when `currentStep >= maxSteps`, otherwise
one simulation step — extend PV by linear extrapolation when the series has no
entry for the new period, grow EV according to the scenario applied to the
previous metrics record's `SPI_t` (read back from the record with
`parseFloat`), advance the period, recompute metrics, and append one entry to
each result log. -/
def runStep (s : SimState) : SimState :=
  if s.maxSteps ≤ s.currentStep then s
  else
    let nextPeriod := s.currentAT + 1
    let pvExt : List ℚ :=
      if s.currentPV.length ≤ nextPeriod then
        let avgIncrement : ℚ :=
          (s.currentPV.getD (s.currentPV.length - 1) 0 - s.currentPV.getD 0 0)
            / ((s.currentPV.length : ℚ) - 1)
        s.currentPV ++ [s.currentPV.getD (s.currentPV.length - 1) 0 + avgIncrement]
      else s.currentPV
    let currentPVval := pvExt.getD nextPeriod 0
    let lastEV := s.currentEV.getD (s.currentEV.length - 1) 0
    let prevPV := pvExt.getD (nextPeriod - 1) 0
    let pvIncrement := currentPVval - prevPV
    let targetSPIt : ℚ :=
      match s.scenario with
      | .recovery => min 1 (s.currentMetrics.SPI_t + 5 / 100)
      | .slippage => max (7 / 10) (s.currentMetrics.SPI_t - 3 / 100)
      | .maintain => s.currentMetrics.SPI_t
    let evIncrement := targetSPIt * pvIncrement
    let nextEV := lastEV + evIncrement
    let evExt := s.currentEV ++ [nextEV]
    let newMetrics :=
      calculateMetrics pvExt evExt (nextPeriod : ℚ) (some s.milestoneDuration) s.replanTime
    { s with
      currentStep := s.currentStep + 1
      currentPV := pvExt
      currentEV := evExt
      currentAT := nextPeriod
      currentMetrics := newMetrics
      resultsPeriods := s.resultsPeriods ++ [nextPeriod]
      resultsPV := s.resultsPV ++ [currentPVval]
      resultsEV := s.resultsEV ++ [nextEV]
      resultsMetrics := s.resultsMetrics ++ [newMetrics] }

/-- A PV series is non-decreasing: each entry is at most the next one. -/
def nonDecreasing (pv : List ℚ) : Prop :=
  ∀ i < pv.length - 1, pv.getD i 0 ≤ pv.getD (i + 1) 0

instance (pv : List ℚ) : Decidable (nonDecreasing pv) :=
  Nat.decidableBallLT (pv.length - 1) fun i _ => pv.getD i 0 ≤ pv.getD (i + 1) 0

/-- The greatest index `C` with `pvCum[C] ≤ evCum`, the words of the spec's
ES rule: search the indices from the highest down for the first satisfying
one. -/
def greatestLeIdx (evCum : ℚ) (pvCum : List ℚ) : Option ℕ :=
  (List.range pvCum.length).reverse.find? fun i => decide (pvCum.getD i 0 ≤ evCum)

/-- The specified ES rule, spelled from the spec's words: greatest index `C`
with `pvCum[C] ≤ evCum`; 0 when no such `C`; `C + 1` at the last index or
within epsilon of a planned point; otherwise `C + 1` plus the interpolated
fraction, taken as 0 when the denominator's magnitude is below epsilon. -/
def esSpecRule (evCum : ℚ) (pvCum : List ℚ) : ℚ :=
  match greatestLeIdx evCum pvCum with
  | none => 0
  | some C =>
    if C = pvCum.length - 1 ∨ |pvCum.getD C 0 - evCum| < eps then (C : ℚ) + 1
    else
      ((C : ℚ) + 1) +
        (if |pvCum.getD (C + 1) 0 - pvCum.getD C 0| < eps then 0
         else (evCum - pvCum.getD C 0) / (pvCum.getD (C + 1) 0 - pvCum.getD C 0))

section ScanLemmas

variable {ev ev1 ev2 : ℚ} {pv : List ℚ} {i j C : ℕ}

lemma ffe_lt_length : ∀ {pv : List ℚ} {i : ℕ}, firstExceedIdx ev pv = some i → i < pv.length := by
  intro pv
  induction pv with
  | nil => intro i h; simp [firstExceedIdx] at h
  | cons p rest ih =>
    intro i h
    by_cases hc : ev < p
    · simp [firstExceedIdx, hc] at h
      simp only [List.length_cons]
      omega
    · simp [firstExceedIdx, hc] at h
      obtain ⟨k, hk, rfl⟩ := h
      have := ih hk
      simp only [List.length_cons]
      omega

lemma ffe_found : ∀ {pv : List ℚ} {i : ℕ}, firstExceedIdx ev pv = some i → ev < pv.getD i 0 := by
  intro pv
  induction pv with
  | nil => intro i h; simp [firstExceedIdx] at h
  | cons p rest ih =>
    intro i h
    by_cases hc : ev < p
    · simp [firstExceedIdx, hc] at h
      simpa [← h] using hc
    · simp [firstExceedIdx, hc] at h
      obtain ⟨k, hk, rfl⟩ := h
      simpa using ih hk

lemma ffe_before : ∀ {pv : List ℚ} {i j : ℕ}, firstExceedIdx ev pv = some i → j < i →
    pv.getD j 0 ≤ ev := by
  intro pv
  induction pv with
  | nil => intro i j h; simp [firstExceedIdx] at h
  | cons p rest ih =>
    intro i j h hj
    by_cases hc : ev < p
    · simp [firstExceedIdx, hc] at h
      omega
    · simp [firstExceedIdx, hc] at h
      obtain ⟨k, hk, rfl⟩ := h
      cases j with
      | zero => simpa using le_of_not_lt hc
      | succ j => simpa using ih hk (by omega)

lemma ffe_none_all : ∀ {pv : List ℚ} {j : ℕ}, firstExceedIdx ev pv = none → j < pv.length →
    pv.getD j 0 ≤ ev := by
  intro pv
  induction pv with
  | nil => intro j _ hj; simp at hj
  | cons p rest ih =>
    intro j h hj
    by_cases hc : ev < p
    · simp [firstExceedIdx, hc] at h
    · simp [firstExceedIdx, hc] at h
      cases j with
      | zero => simpa using le_of_not_lt hc
      | succ j => simpa using ih h (by simpa using hj)

lemma ffe_eq_none_of_all : ∀ {pv : List ℚ}, (∀ j < pv.length, pv.getD j 0 ≤ ev) →
    firstExceedIdx ev pv = none := by
  intro pv
  induction pv with
  | nil => intro _; rfl
  | cons p rest ih =>
    intro h
    have h0 : p ≤ ev := by simpa using h 0 (by simp)
    have hrest : firstExceedIdx ev rest = none := by
      refine ih fun j hj => ?_
      simpa using h (j + 1) (by simpa using hj)
    simp [firstExceedIdx, not_lt.mpr h0, hrest]

lemma ffe_mono_none : ∀ {pv : List ℚ}, ev1 ≤ ev2 → firstExceedIdx ev1 pv = none →
    firstExceedIdx ev2 pv = none := by
  intro pv h12
  induction pv with
  | nil => intro _; rfl
  | cons p rest ih =>
    intro h
    by_cases hc : ev1 < p
    · simp [firstExceedIdx, hc] at h
    · simp [firstExceedIdx, hc] at h
      have hc2 : ¬ ev2 < p := not_lt.mpr (le_trans (le_of_not_lt hc) h12)
      simp [firstExceedIdx, hc2, ih h]

lemma ffe_mono_some : ∀ {pv : List ℚ} {i : ℕ}, ev1 ≤ ev2 → firstExceedIdx ev2 pv = some i →
    ∃ k, firstExceedIdx ev1 pv = some k ∧ k ≤ i := by
  intro pv
  induction pv with
  | nil => intro i _ h; simp [firstExceedIdx] at h
  | cons p rest ih =>
    intro i h12 h
    by_cases hc2 : ev2 < p
    · simp [firstExceedIdx, hc2] at h
      have hc1 : ev1 < p := lt_of_le_of_lt h12 hc2
      exact ⟨0, by simp [firstExceedIdx, hc1], by omega⟩
    · simp [firstExceedIdx, hc2] at h
      obtain ⟨k, hk, rfl⟩ := h
      by_cases hc1 : ev1 < p
      · exact ⟨0, by simp [firstExceedIdx, hc1], by omega⟩
      · obtain ⟨k1, hk1, hle⟩ := ih h12 hk
        exact ⟨k1 + 1, by simp [firstExceedIdx, hc1, hk1], by omega⟩

end ScanLemmas

section InterpLemmas

variable {ev ev1 ev2 : ℚ} {pv : List ℚ} {C : ℕ}

lemma eps_pos : (0 : ℚ) < eps := by norm_num [eps]

lemma esFrom_last (hne : pv ≠ []) : esFrom ev pv (pv.length - 1) = pv.length := by
  have h0 : 0 < pv.length := List.length_pos.mpr hne
  rw [esFrom, if_pos (Or.inl rfl)]
  have : ((pv.length - 1 : ℕ) : ℚ) = (pv.length : ℚ) - 1 := by
    push_cast [Nat.cast_sub (by omega : 1 ≤ pv.length)]
    ring
  rw [this]
  ring

lemma interp_facts (h2 : pv.getD C 0 ≤ ev) (h3 : ev < pv.getD (C + 1) 0)
    (hsnap : eps ≤ |pv.getD C 0 - ev|) :
    eps < |pv.getD (C + 1) 0 - pv.getD C 0| ∧
      0 ≤ (ev - pv.getD C 0) / (pv.getD (C + 1) 0 - pv.getD C 0) ∧
      (ev - pv.getD C 0) / (pv.getD (C + 1) 0 - pv.getD C 0) < 1 := by
  set a := pv.getD C 0 with ha
  set b := pv.getD (C + 1) 0 with hb
  have habs : |a - ev| = ev - a := by
    rw [abs_of_nonpos (by linarith)]
    ring
  have hev : eps ≤ ev - a := by
    rw [habs] at hsnap
    linarith
  have hd : eps < b - a := by linarith
  have hdpos : 0 < b - a := lt_trans eps_pos hd
  refine ⟨by rwa [abs_of_pos hdpos], div_nonneg (by linarith [eps_pos]) (le_of_lt hdpos), ?_⟩
  rw [div_lt_one hdpos]
  linarith

lemma esFrom_lower (h2 : pv.getD C 0 ≤ ev) (h3 : ev < pv.getD (C + 1) 0) :
    (C : ℚ) + 1 ≤ esFrom ev pv C := by
  rw [esFrom]
  by_cases hcond : C = pv.length - 1 ∨ |pv.getD C 0 - ev| < eps
  · rw [if_pos hcond]
  · rw [if_neg hcond]
    push_neg at hcond
    obtain ⟨hg, hI0, _⟩ := interp_facts h2 h3 hcond.2
    rw [if_pos hg]
    linarith

lemma esFrom_upper (h2 : pv.getD C 0 ≤ ev) (h3 : ev < pv.getD (C + 1) 0) :
    esFrom ev pv C < (C : ℚ) + 2 := by
  rw [esFrom]
  by_cases hcond : C = pv.length - 1 ∨ |pv.getD C 0 - ev| < eps
  · rw [if_pos hcond]
    linarith
  · rw [if_neg hcond]
    push_neg at hcond
    obtain ⟨hg, _, hI1⟩ := interp_facts h2 h3 hcond.2
    rw [if_pos hg]
    linarith

lemma esFrom_mono (h2 : pv.getD C 0 ≤ ev1) (h12 : ev1 ≤ ev2) (h3 : ev2 < pv.getD (C + 1) 0) :
    esFrom ev1 pv C ≤ esFrom ev2 pv C := by
  by_cases hlast : C = pv.length - 1
  · rw [esFrom, esFrom, if_pos (Or.inl hlast), if_pos (Or.inl hlast)]
  have h2' : pv.getD C 0 ≤ ev2 := le_trans h2 h12
  have h3' : ev1 < pv.getD (C + 1) 0 := lt_of_le_of_lt h12 h3
  by_cases hs2 : |pv.getD C 0 - ev2| < eps
  · -- both within epsilon of the planned point: both return C + 1
    have hs1 : |pv.getD C 0 - ev1| < eps := by
      have e2 : |pv.getD C 0 - ev2| = ev2 - pv.getD C 0 := by
        rw [abs_of_nonpos (by linarith)]
        ring
      have e1 : |pv.getD C 0 - ev1| = ev1 - pv.getD C 0 := by
        rw [abs_of_nonpos (by linarith)]
        ring
      rw [e1]
      rw [e2] at hs2
      linarith
    rw [esFrom, esFrom, if_pos (Or.inr hs1), if_pos (Or.inr hs2)]
  by_cases hs1 : |pv.getD C 0 - ev1| < eps
  · -- ev1 snaps to C + 1, ev2 interpolates above it
    obtain ⟨hg, hI0, _⟩ := interp_facts h2' h3 (not_lt.mp hs2)
    rw [esFrom, esFrom, if_pos (Or.inr hs1), if_neg (not_or.mpr ⟨hlast, hs2⟩), if_pos hg]
    linarith
  · -- both interpolate over the same positive denominator
    obtain ⟨hg, _, _⟩ := interp_facts h2' h3 (not_lt.mp hs2)
    have hdpos : 0 < pv.getD (C + 1) 0 - pv.getD C 0 := by linarith
    rw [esFrom, esFrom, if_neg (not_or.mpr ⟨hlast, hs1⟩), if_neg (not_or.mpr ⟨hlast, hs2⟩),
      if_pos hg, if_pos hg]
    have hdiv : (ev1 - pv.getD C 0) / (pv.getD (C + 1) 0 - pv.getD C 0) ≤
        (ev2 - pv.getD C 0) / (pv.getD (C + 1) 0 - pv.getD C 0) :=
      (div_le_div_iff_of_pos_right hdpos).mpr (by linarith)
    linarith

end InterpLemmas

section ESLemmas

variable {ev ev1 ev2 : ℚ} {pv : List ℚ} {i : ℕ}

lemma calcES_of_ffe_zero (h : firstExceedIdx ev pv = some 0) :
    calculateEarnedSchedule ev pv = 0 := by
  simp [calculateEarnedSchedule, h]

lemma calcES_of_ffe_succ (h : firstExceedIdx ev pv = some (i + 1)) :
    calculateEarnedSchedule ev pv = esFrom ev pv i := by
  simp [calculateEarnedSchedule, h]

lemma calcES_of_ffe_none (hne : pv ≠ []) (h : firstExceedIdx ev pv = none) :
    calculateEarnedSchedule ev pv = pv.length := by
  have hisE : pv.isEmpty = false := by
    cases pv
    · exact absurd rfl hne
    · rfl
  simp [calculateEarnedSchedule, h, hisE, esFrom_last hne]

lemma calcES_nonneg (ev : ℚ) (pv : List ℚ) : 0 ≤ calculateEarnedSchedule ev pv := by
  rcases hf : firstExceedIdx ev pv with _ | i
  · by_cases hne : pv = []
    · subst hne
      simp [calculateEarnedSchedule, firstExceedIdx]
    · rw [calcES_of_ffe_none hne hf]
      exact_mod_cast Nat.zero_le pv.length
  · cases i with
    | zero => rw [calcES_of_ffe_zero hf]
    | succ i =>
      rw [calcES_of_ffe_succ hf]
      have h2 : pv.getD i 0 ≤ ev := ffe_before hf (Nat.lt_succ_self i)
      have h3 : ev < pv.getD (i + 1) 0 := ffe_found hf
      have hlow := esFrom_lower h2 h3
      have : (0 : ℚ) ≤ (i : ℚ) + 1 := by positivity
      linarith

lemma calcES_le_length (ev : ℚ) (pv : List ℚ) : calculateEarnedSchedule ev pv ≤ pv.length := by
  rcases hf : firstExceedIdx ev pv with _ | i
  · by_cases hne : pv = []
    · subst hne
      simp [calculateEarnedSchedule, firstExceedIdx]
    · rw [calcES_of_ffe_none hne hf]
  · cases i with
    | zero =>
      rw [calcES_of_ffe_zero hf]
      exact_mod_cast Nat.zero_le pv.length
    | succ i =>
      rw [calcES_of_ffe_succ hf]
      have h1 : i + 1 < pv.length := ffe_lt_length hf
      have h2 : pv.getD i 0 ≤ ev := ffe_before hf (Nat.lt_succ_self i)
      have h3 : ev < pv.getD (i + 1) 0 := ffe_found hf
      have hup := esFrom_upper h2 h3
      have hcast : (i : ℚ) + 2 ≤ (pv.length : ℚ) := by
        have : i + 2 ≤ pv.length := by omega
        exact_mod_cast this
      linarith

lemma calcES_monotone (h12 : ev1 ≤ ev2) :
    calculateEarnedSchedule ev1 pv ≤ calculateEarnedSchedule ev2 pv := by
  rcases hf2 : firstExceedIdx ev2 pv with _ | i2
  · -- the loop never breaks for ev2: ES(ev2) is 0 (empty) or the full length
    by_cases hne : pv = []
    · subst hne
      simp [calculateEarnedSchedule, firstExceedIdx]
    · rw [calcES_of_ffe_none hne hf2]
      exact calcES_le_length ev1 pv
  · obtain ⟨i1, hf1, hle⟩ := ffe_mono_some h12 hf2
    cases i1 with
    | zero =>
      rw [calcES_of_ffe_zero hf1]
      exact calcES_nonneg ev2 pv
    | succ j1 =>
      cases i2 with
      | zero => omega
      | succ j2 =>
        rw [calcES_of_ffe_succ hf1, calcES_of_ffe_succ hf2]
        have hj1lt : j1 + 1 < pv.length := ffe_lt_length hf1
        have hj1lo : pv.getD j1 0 ≤ ev1 := ffe_before hf1 (Nat.lt_succ_self j1)
        have hj1hi : ev1 < pv.getD (j1 + 1) 0 := ffe_found hf1
        have hj2lo : pv.getD j2 0 ≤ ev2 := ffe_before hf2 (Nat.lt_succ_self j2)
        have hj2hi : ev2 < pv.getD (j2 + 1) 0 := ffe_found hf2
        rcases Nat.lt_or_ge j1 j2 with hlt | hge
        · -- strictly earlier segment: ES(ev1) < j1 + 2 ≤ j2 + 1 ≤ ES(ev2)
          have hup := esFrom_upper hj1lo hj1hi
          have hlow := esFrom_lower hj2lo hj2hi
          have hcast : (j1 : ℚ) + 2 ≤ (j2 : ℚ) + 1 := by
            have : j1 + 2 ≤ j2 + 1 := by omega
            exact_mod_cast this
          linarith
        · -- same segment
          have heq : j1 = j2 := by omega
          subst heq
          exact esFrom_mono hj1lo h12 hj2hi

end ESLemmas

section SpecRuleLemmas

variable {ev : ℚ} {pv : List ℚ} {i j C : ℕ}

lemma nonDecreasing_getD_le (hnd : nonDecreasing pv) :
    i ≤ j → j < pv.length → pv.getD i 0 ≤ pv.getD j 0 := by
  intro hij
  induction j, hij using Nat.le_induction with
  | base => intro _; exact le_rfl
  | succ k hik ih =>
    intro hk1
    exact le_trans (ih (by omega)) (hnd k (by omega))

lemma revRangeFind_succ (p : ℕ → Bool) (n : ℕ) :
    (List.range (n + 1)).reverse.find? p =
      if p n then some n else (List.range n).reverse.find? p := by
  rw [List.range_succ, List.reverse_append]
  cases hp : p n <;> simp [hp, List.find?]

lemma revRangeFind_eq_some (p : ℕ → Bool) {n C : ℕ} (h1 : C < n) (h2 : p C = true)
    (h3 : ∀ j, C < j → j < n → p j = false) :
    (List.range n).reverse.find? p = some C := by
  induction n with
  | zero => omega
  | succ m ih =>
    rw [revRangeFind_succ]
    by_cases hm : C = m
    · subst hm
      rw [h2]
      rfl
    · rw [h3 m (by omega) (by omega)]
      simp only [Bool.false_eq_true, if_false]
      exact ih (by omega) fun j hj1 hj2 => h3 j hj1 (by omega)

lemma revRangeFind_eq_none (p : ℕ → Bool) {n : ℕ} (h : ∀ j < n, p j = false) :
    (List.range n).reverse.find? p = none := by
  induction n with
  | zero => rfl
  | succ m ih =>
    rw [revRangeFind_succ, h m (by omega)]
    simp only [Bool.false_eq_true, if_false]
    exact ih fun j hj => h j (by omega)

lemma greatestLeIdx_eq_some (h1 : C < pv.length) (h2 : pv.getD C 0 ≤ ev)
    (h3 : ∀ j, C < j → j < pv.length → ev < pv.getD j 0) :
    greatestLeIdx ev pv = some C := by
  refine revRangeFind_eq_some _ h1 (by simpa using h2) fun j hj1 hj2 => ?_
  simpa using not_le.mpr (h3 j hj1 hj2)

lemma greatestLeIdx_eq_none (h : ∀ j < pv.length, ev < pv.getD j 0) :
    greatestLeIdx ev pv = none := by
  refine revRangeFind_eq_none _ fun j hj => ?_
  simpa using not_le.mpr (h j hj)

lemma esSpecRule_of_none (h : greatestLeIdx ev pv = none) : esSpecRule ev pv = 0 := by
  simp [esSpecRule, h]

lemma esSpecRule_of_some (h : greatestLeIdx ev pv = some C) :
    esSpecRule ev pv =
      if C = pv.length - 1 ∨ |pv.getD C 0 - ev| < eps then (C : ℚ) + 1
      else
        ((C : ℚ) + 1) +
          (if |pv.getD (C + 1) 0 - pv.getD C 0| < eps then 0
           else (ev - pv.getD C 0) / (pv.getD (C + 1) 0 - pv.getD C 0)) := by
  simp [esSpecRule, h]

/-- On a non-empty, non-decreasing PV series the source's scanning loop picks
the same period index as the spec's "greatest index with PV ≤ EV" rule, and the
two interpolation formulas coincide: the code computes exactly the ES value the
spec specifies. -/
lemma calcES_eq_esSpecRule (hne : pv ≠ []) (hnd : nonDecreasing pv) :
    calculateEarnedSchedule ev pv = esSpecRule ev pv := by
  have hlen : 0 < pv.length := List.length_pos.mpr hne
  rcases hf : firstExceedIdx ev pv with _ | i
  · -- loop never breaks: C = length - 1 on both sides
    have hglast : greatestLeIdx ev pv = some (pv.length - 1) :=
      greatestLeIdx_eq_some (by omega) (ffe_none_all hf (by omega)) (by omega)
    rw [calcES_of_ffe_none hne hf, esSpecRule_of_some hglast, if_pos (Or.inl rfl)]
    have : ((pv.length - 1 : ℕ) : ℚ) = (pv.length : ℚ) - 1 := by
      push_cast [Nat.cast_sub (by omega : 1 ≤ pv.length)]
      ring
    rw [this]
    ring
  · cases i with
    | zero =>
      -- EV below the first entry: spec has no candidate index at all
      have h0 : ev < pv.getD 0 0 := ffe_found hf
      have hgnone : greatestLeIdx ev pv = none :=
        greatestLeIdx_eq_none fun j hj =>
          lt_of_lt_of_le h0 (nonDecreasing_getD_le hnd (Nat.zero_le j) hj)
      rw [calcES_of_ffe_zero hf, esSpecRule_of_none hgnone]
    | succ i =>
      have h1 : i + 1 < pv.length := ffe_lt_length hf
      have h2 : pv.getD i 0 ≤ ev := ffe_before hf (Nat.lt_succ_self i)
      have h3 : ev < pv.getD (i + 1) 0 := ffe_found hf
      have hg : greatestLeIdx ev pv = some i :=
        greatestLeIdx_eq_some (by omega) h2 fun j hj1 hj2 =>
          lt_of_lt_of_le h3 (nonDecreasing_getD_le hnd (by omega) hj2)
      rw [calcES_of_ffe_succ hf, esSpecRule_of_some hg, esFrom]
      have hnotlast : ¬ i = pv.length - 1 := by omega
      by_cases hsnap : |pv.getD i 0 - ev| < eps
      · rw [if_pos (Or.inr hsnap), if_pos (Or.inr hsnap)]
      · rw [if_neg (not_or.mpr ⟨hnotlast, hsnap⟩), if_neg (not_or.mpr ⟨hnotlast, hsnap⟩)]
        obtain ⟨hg2, -, -⟩ := interp_facts h2 h3 (not_lt.mp hsnap)
        rw [if_pos hg2, if_neg (not_lt.mpr (le_of_lt hg2))]

end SpecRuleLemmas

section SimLemmas

/-- The guard at the top of `runStep`: at or beyond `maxSteps` the step call
only reports the terminal status and leaves the whole state unchanged. -/
lemma runStep_terminal {s : SimState} (h : s.maxSteps ≤ s.currentStep) : runStep s = s := by
  rw [runStep, if_pos h]

lemma runStep_effective {s : SimState} (h : s.currentStep < s.maxSteps) :
    (runStep s).currentStep = s.currentStep + 1 ∧
    (runStep s).maxSteps = s.maxSteps ∧
    (runStep s).resultsPeriods.length = s.resultsPeriods.length + 1 ∧
    (runStep s).resultsPV.length = s.resultsPV.length + 1 ∧
    (runStep s).resultsEV.length = s.resultsEV.length + 1 ∧
    (runStep s).resultsMetrics.length = s.resultsMetrics.length + 1 := by
  simp [runStep, not_le.mpr h]

lemma sim_iterate (pvValues evValues : List ℚ) (actualTime : ℕ) (milestoneDuration : ℚ)
    (steps : ℕ) (scen : Scenario) (replanEnabled : Bool) (N : ℕ) :
    (runStep^[N] (initSimulation pvValues evValues actualTime milestoneDuration steps scen
        replanEnabled)).currentStep = min N steps ∧
    (runStep^[N] (initSimulation pvValues evValues actualTime milestoneDuration steps scen
        replanEnabled)).maxSteps = steps ∧
    (runStep^[N] (initSimulation pvValues evValues actualTime milestoneDuration steps scen
        replanEnabled)).resultsPeriods.length = min N steps ∧
    (runStep^[N] (initSimulation pvValues evValues actualTime milestoneDuration steps scen
        replanEnabled)).resultsPV.length = min N steps ∧
    (runStep^[N] (initSimulation pvValues evValues actualTime milestoneDuration steps scen
        replanEnabled)).resultsEV.length = min N steps ∧
    (runStep^[N] (initSimulation pvValues evValues actualTime milestoneDuration steps scen
        replanEnabled)).resultsMetrics.length = min N steps := by
  induction N with
  | zero => simp [initSimulation]
  | succ n ih =>
    obtain ⟨h1, h2, h3, h4, h5, h6⟩ := ih
    simp only [Function.iterate_succ_apply'] at h1 h2 h3 h4 h5 h6 ⊢
    set t := runStep^[n] (initSimulation pvValues evValues actualTime milestoneDuration steps
      scen replanEnabled) with ht
    by_cases hlt : t.currentStep < t.maxSteps
    · obtain ⟨e1, e2, e3, e4, e5, e6⟩ := runStep_effective hlt
      rw [e1, e2, e3, e4, e5, e6, h1, h2, h3, h4, h5, h6]
      rw [h1, h2] at hlt
      refine ⟨by omega, rfl, by omega, by omega, by omega, by omega⟩
    · have hterm : t.maxSteps ≤ t.currentStep := not_lt.mp hlt
      rw [runStep_terminal hterm, h1, h2, h3, h4, h5, h6]
      rw [h1, h2] at hterm
      refine ⟨by omega, rfl, by omega, by omega, by omega, by omega⟩

end SimLemmas

/-- C1: on every non-empty (cumulative, hence non-decreasing) planned-value
series, `calculateEarnedSchedule` computes ES by the specified rule — greatest
index `C` with `pvCum[C] ≤ evCum`, 0 when none, `C + 1` at the last index or
within 1e-9 of a planned point, otherwise `C + 1` plus the guarded
interpolation fraction — and for `pvCum = [10,25,45,70,100]`, `evCum = 38` the
result is exactly 2.65. -/
theorem claim_C1_es_rule :
    (∀ (pvCum : List ℚ) (evCum : ℚ), pvCum ≠ [] → nonDecreasing pvCum →
      calculateEarnedSchedule evCum pvCum = esSpecRule evCum pvCum) ∧
    calculateEarnedSchedule 38 [10, 25, 45, 70, 100] = 265 / 100 := by
  constructor
  · intro pvCum evCum hne hnd
    exact calcES_eq_esSpecRule hne hnd
  · norm_num [calculateEarnedSchedule, firstExceedIdx, esFrom, eps]

theorem claim_C1_witness :
    ([10, 25, 45, 70, 100] : List ℚ) ≠ [] ∧
    nonDecreasing [10, 25, 45, 70, 100] ∧
    calculateEarnedSchedule 38 [10, 25, 45, 70, 100] = esSpecRule 38 [10, 25, 45, 70, 100] :=
  ⟨by decide, by decide, claim_C1_es_rule.1 [10, 25, 45, 70, 100] 38 (by decide) (by decide)⟩

/-- C5: for every non-empty PV series the ES result lies in
`[0, pvCum.length]`; on a non-decreasing series, EV below the first entry
yields 0 and EV at or above the last entry yields the full series length. -/
theorem claim_C5_es_boundary :
    ∀ (pvCum : List ℚ) (evCum : ℚ), pvCum ≠ [] →
      (0 ≤ calculateEarnedSchedule evCum pvCum ∧
        calculateEarnedSchedule evCum pvCum ≤ pvCum.length) ∧
      (nonDecreasing pvCum →
        (evCum < pvCum.getD 0 0 → calculateEarnedSchedule evCum pvCum = 0) ∧
        (pvCum.getD (pvCum.length - 1) 0 ≤ evCum →
          calculateEarnedSchedule evCum pvCum = pvCum.length)) := by
  intro pvCum evCum hne
  refine ⟨⟨calcES_nonneg evCum pvCum, calcES_le_length evCum pvCum⟩, fun hnd => ⟨?_, ?_⟩⟩
  · intro hbelow
    have hffe : firstExceedIdx evCum pvCum = some 0 := by
      cases pvCum with
      | nil => exact absurd rfl hne
      | cons p rest =>
        have : evCum < p := by simpa using hbelow
        simp [firstExceedIdx, this]
    exact calcES_of_ffe_zero hffe
  · intro hlast
    have hlen : 0 < pvCum.length := List.length_pos.mpr hne
    have hffe : firstExceedIdx evCum pvCum = none :=
      ffe_eq_none_of_all fun j hj =>
        le_trans (nonDecreasing_getD_le hnd (by omega) (by omega)) hlast
    exact calcES_of_ffe_none hne hffe

theorem claim_C5_witness :
    (0 ≤ calculateEarnedSchedule 5 [10, 25, 45, 70, 100] ∧
      calculateEarnedSchedule 5 [10, 25, 45, 70, 100] ≤
        ([10, 25, 45, 70, 100] : List ℚ).length) ∧
    calculateEarnedSchedule 5 [10, 25, 45, 70, 100] = 0 ∧
    calculateEarnedSchedule 100 [10, 25, 45, 70, 100] =
      ([10, 25, 45, 70, 100] : List ℚ).length :=
  ⟨(claim_C5_es_boundary [10, 25, 45, 70, 100] 5 (by decide)).1,
    ((claim_C5_es_boundary [10, 25, 45, 70, 100] 5 (by decide)).2 (by decide)).1 (by decide),
    ((claim_C5_es_boundary [10, 25, 45, 70, 100] 100 (by decide)).2 (by decide)).2 (by decide)⟩

/-- C9: on a non-empty, non-decreasing PV series, ES is non-negative and is a
monotonically non-decreasing function of the latest cumulative EV. -/
theorem claim_C9_es_monotone :
    ∀ (pvCum : List ℚ) (ev1 ev2 : ℚ), pvCum ≠ [] → nonDecreasing pvCum → ev1 ≤ ev2 →
      0 ≤ calculateEarnedSchedule ev1 pvCum ∧
      calculateEarnedSchedule ev1 pvCum ≤ calculateEarnedSchedule ev2 pvCum := by
  intro pvCum ev1 ev2 _ _ h12
  exact ⟨calcES_nonneg ev1 pvCum, calcES_monotone h12⟩

theorem claim_C9_witness :
    0 ≤ calculateEarnedSchedule 20 [10, 25, 45, 70, 100] ∧
    calculateEarnedSchedule 20 [10, 25, 45, 70, 100] ≤
      calculateEarnedSchedule 38 [10, 25, 45, 70, 100] :=
  claim_C9_es_monotone [10, 25, 45, 70, 100] 20 38 (by decide) (by decide) (by decide)

/-- C10: on an empty PV series the scanning loop never runs, `C` stays
undefined, and `calculateEarnedSchedule` returns 0 for every EV value — the
function is total there despite the spec's caller-responsibility
precondition. -/
theorem claim_C10_empty_pv :
    ∀ evCum : ℚ, calculateEarnedSchedule evCum [] = 0 :=
  fun _ => rfl

/-- C6: every degenerate denominator in `calculateMetrics` is absorbed by a
defined fallback instead of an error: `SPI_t = 1.0` whenever `actualTime = 0`;
`IEAC_t_M` is the positive-infinity sentinel whenever `SPI_t ≤ 0`; `TSPI_M` is
the positive-infinity sentinel whenever `milestoneDuration = actualTime`; and
`IEAC_t_RP` is the positive-infinity sentinel whenever `SPI_t_rem ≤ 0` — the
computation is total on every input satisfying the series preconditions. -/
theorem claim_C6_degenerate_guards :
    ∀ (pvValues evValues : List ℚ) (actualTime md : ℚ) (rp : ℕ),
      pvValues ≠ [] → evValues ≠ [] →
      (actualTime = 0 →
        (calculateMetricsRaw pvValues evValues actualTime (some md) (some rp)).SPI_t = 1) ∧
      ((calculateMetricsRaw pvValues evValues actualTime (some md) (some rp)).SPI_t ≤ 0 →
        (calculateMetricsRaw pvValues evValues actualTime (some md) (some rp)).IEAC_t_M =
          some XNum.posInf) ∧
      (md = actualTime →
        (calculateMetricsRaw pvValues evValues actualTime (some md) (some rp)).TSPI_M =
          some XNum.posInf) ∧
      (∀ sr : ℚ,
        (calculateMetricsRaw pvValues evValues actualTime (some md) (some rp)).SPI_t_rem =
          some sr → sr ≤ 0 →
        (calculateMetricsRaw pvValues evValues actualTime (some md) (some rp)).IEAC_t_RP =
          some XNum.posInf) := by
  intro pvValues evValues actualTime md rp hpv hev
  refine ⟨?_, ?_, ?_, ?_⟩
  · intro h0
    subst h0
    simp [calculateMetricsRaw]
  · intro hle
    simp only [calculateMetricsRaw] at hle ⊢
    rw [if_neg (not_lt.mpr hle)]
  · intro hmd
    subst hmd
    simp [calculateMetricsRaw]
  · intro sr hsr hle
    simp only [calculateMetricsRaw] at hsr ⊢
    rw [Option.some.injEq] at hsr
    rw [hsr, if_neg (not_lt.mpr hle)]

theorem claim_C6_witness :
    (calculateMetricsRaw [10] [5] 0 (some 5) (some 0)).SPI_t = 1 ∧
    (calculateMetricsRaw [10] [5] 2 (some 5) (some 0)).IEAC_t_M = some XNum.posInf ∧
    (calculateMetricsRaw [10] [5] 2 (some 2) (some 0)).TSPI_M = some XNum.posInf ∧
    (calculateMetricsRaw [10] [5] 2 (some 5) (some 0)).IEAC_t_RP = some XNum.posInf :=
  ⟨(claim_C6_degenerate_guards [10] [5] 0 5 0 (by decide) (by decide)).1 rfl,
    (claim_C6_degenerate_guards [10] [5] 2 5 0 (by decide) (by decide)).2.1 (by
      norm_num [calculateMetricsRaw, calculateEarnedSchedule, firstExceedIdx]),
    (claim_C6_degenerate_guards [10] [5] 2 2 0 (by decide) (by decide)).2.2.1 rfl,
    (claim_C6_degenerate_guards [10] [5] 2 5 0 (by decide) (by decide)).2.2.2 0 (by
      norm_num [calculateMetricsRaw, calculateEarnedSchedule, firstExceedIdx]) le_rfl⟩

section RawProjections

variable (pv ev : List ℚ) (t : ℚ) (md : Option ℚ) (rp : ℕ)

lemma raw_D_pre : (calculateMetricsRaw pv ev t md (some rp)).D_pre = some (rp : ℚ) := rfl

lemma raw_PD_rem :
    (calculateMetricsRaw pv ev t md (some rp)).PD_rem = some ((pv.length : ℚ) - rp) := rfl

lemma raw_SPI_t :
    (calculateMetricsRaw pv ev t md (some rp)).SPI_t =
      if 0 < t then calculateEarnedSchedule (ev.getD (ev.length - 1) 0) pv / t else 1 := rfl

lemma raw_SPI_t_rem :
    (calculateMetricsRaw pv ev t md (some rp)).SPI_t_rem =
      some (if (rp : ℚ) < t then
        (if 0 < t - (rp : ℚ) ∧ 0 < (ev.drop rp).length then
          calculateEarnedSchedule ((ev.drop rp).getD ((ev.drop rp).length - 1) 0) (pv.drop rp)
            / (t - rp)
        else (calculateMetricsRaw pv ev t md (some rp)).SPI_t)
      else (calculateMetricsRaw pv ev t md (some rp)).SPI_t) := rfl

lemma raw_IEAC_t_RP :
    (calculateMetricsRaw pv ev t md (some rp)).IEAC_t_RP =
      ((calculateMetricsRaw pv ev t md (some rp)).SPI_t_rem).map fun sr =>
        if 0 < sr then XNum.num ((rp : ℚ) + ((pv.length : ℚ) - rp) / sr) else XNum.posInf := rfl

end RawProjections

/-- C7: with `replanTime` supplied, the computed re-plan metrics are
`D_pre = replanTime`, `PD_rem = pvValues.length − replanTime`, `SPI_t_rem`
recomputed over the post-replan PV/EV sub-series divided by
`actualTime − replanTime` exactly when `actualTime > replanTime` and the
post-replan EV sub-series is non-empty (falling back to the overall `SPI_t`
otherwise), and `IEAC_t_RP = D_pre + PD_rem / SPI_t_rem` whenever
`SPI_t_rem` is positive. -/
theorem claim_C7_replan_metrics :
    ∀ (pvValues evValues : List ℚ) (actualTime : ℚ) (md : Option ℚ) (rp : ℕ),
      pvValues ≠ [] → evValues ≠ [] →
      (calculateMetricsRaw pvValues evValues actualTime md (some rp)).D_pre = some (rp : ℚ) ∧
      (calculateMetricsRaw pvValues evValues actualTime md (some rp)).PD_rem =
        some ((pvValues.length : ℚ) - rp) ∧
      (calculateMetricsRaw pvValues evValues actualTime md (some rp)).SPI_t_rem =
        some (if (rp : ℚ) < actualTime ∧ evValues.drop rp ≠ [] then
          calculateEarnedSchedule ((evValues.drop rp).getD ((evValues.drop rp).length - 1) 0)
              (pvValues.drop rp) / (actualTime - rp)
        else (calculateMetricsRaw pvValues evValues actualTime md (some rp)).SPI_t) ∧
      (∀ sr : ℚ,
        (calculateMetricsRaw pvValues evValues actualTime md (some rp)).SPI_t_rem = some sr →
        0 < sr →
        (calculateMetricsRaw pvValues evValues actualTime md (some rp)).IEAC_t_RP =
          some (XNum.num ((rp : ℚ) + ((pvValues.length : ℚ) - rp) / sr))) := by
  intro pvValues evValues actualTime md rp hpv hev
  refine ⟨raw_D_pre _ _ _ _ _, raw_PD_rem _ _ _ _ _, ?_, ?_⟩
  · rw [raw_SPI_t_rem, Option.some.injEq]
    by_cases hat : (rp : ℚ) < actualTime
    · by_cases hlen : 0 < (evValues.drop rp).length
      · rw [if_pos hat, if_pos ⟨by linarith, hlen⟩,
          if_pos ⟨hat, List.length_pos.mp hlen⟩]
      · rw [if_pos hat, if_neg (fun hc => hlen hc.2),
          if_neg (fun hc => hlen (List.length_pos.mpr hc.2))]
    · rw [if_neg hat, if_neg (fun hc => hat hc.1)]
  · intro sr hsr hpos
    rw [raw_IEAC_t_RP, hsr, Option.map_some', if_pos hpos]

theorem claim_C7_witness :
    (calculateMetricsRaw [10, 25, 45, 70] [8, 20, 38, 60] 3 (some 10) (some 1)).D_pre =
      some ((1 : ℕ) : ℚ) ∧
    (calculateMetricsRaw [10, 25, 45, 70] [8, 20, 38, 60] 3 (some 10) (some 1)).PD_rem =
      some ((([10, 25, 45, 70] : List ℚ).length : ℚ) - (1 : ℕ)) ∧
    (calculateMetricsRaw [10, 25, 45, 70] [8, 20, 38, 60] 3 (some 10) (some 1)).IEAC_t_RP =
      some (XNum.num (((1 : ℕ) : ℚ) + ((([10, 25, 45, 70] : List ℚ).length : ℚ) - (1 : ℕ)) /
        (13 / 10))) := by
  have h := claim_C7_replan_metrics [10, 25, 45, 70] [8, 20, 38, 60] 3 (some 10) 1
    (by decide) (by decide)
  have hsr : (calculateMetricsRaw [10, 25, 45, 70] [8, 20, 38, 60] 3 (some 10)
      (some 1)).SPI_t_rem = some (13 / 10) := by
    rw [h.2.2.1, if_pos ⟨by norm_num, by simp⟩]
    norm_num [calculateEarnedSchedule, firstExceedIdx, esFrom, eps]
  exact ⟨h.1, h.2.1, h.2.2.2 (13 / 10) hsr (by norm_num)⟩

/-- C2 (amended): `calculateMetrics` returns a record whose fields are the
2-decimal roundings of the computed metric values — the record retains the
rounded values, not the full-precision ones — and the simulation driver's
scenario stepping consumes the rounded `SPI_t` stored in the previous metrics
record (shown here for the `maintain` scenario, whose EV increment is the
record's `SPI_t` times the PV increment). -/
theorem claim_C2_record_rounds :
    (∀ (pvValues evValues : List ℚ) (actualTime : ℚ) (md : Option ℚ) (rp : Option ℕ),
      (calculateMetrics pvValues evValues actualTime md rp).ES =
        toFixed2 ((calculateMetricsRaw pvValues evValues actualTime md rp).ES) ∧
      (calculateMetrics pvValues evValues actualTime md rp).SV_t =
        toFixed2 ((calculateMetricsRaw pvValues evValues actualTime md rp).SV_t) ∧
      (calculateMetrics pvValues evValues actualTime md rp).SPI_t =
        toFixed2 ((calculateMetricsRaw pvValues evValues actualTime md rp).SPI_t) ∧
      (calculateMetrics pvValues evValues actualTime md rp).IEAC_t_M =
        ((calculateMetricsRaw pvValues evValues actualTime md rp).IEAC_t_M).map toFixed2X ∧
      (calculateMetrics pvValues evValues actualTime md rp).TSPI_M =
        ((calculateMetricsRaw pvValues evValues actualTime md rp).TSPI_M).map toFixed2X ∧
      (calculateMetrics pvValues evValues actualTime md rp).SPI_t_rem =
        ((calculateMetricsRaw pvValues evValues actualTime md rp).SPI_t_rem).map toFixed2 ∧
      (calculateMetrics pvValues evValues actualTime md rp).IEAC_t_RP =
        ((calculateMetricsRaw pvValues evValues actualTime md rp).IEAC_t_RP).map toFixed2X) ∧
    (∀ s : SimState, s.currentStep < s.maxSteps → s.scenario = Scenario.maintain →
      (runStep s).currentEV = s.currentEV ++
        [s.currentEV.getD (s.currentEV.length - 1) 0 +
          s.currentMetrics.SPI_t *
            ((runStep s).currentPV.getD (s.currentAT + 1) 0 -
              (runStep s).currentPV.getD s.currentAT 0)]) := by
  constructor
  · intro pvValues evValues actualTime md rp
    exact ⟨rfl, rfl, rfl, rfl, rfl, rfl, rfl⟩
  · intro s h1 h2
    simp [runStep, not_le.mpr h1, h2]

theorem claim_C2_witness :
    (calculateMetrics [10] [5] 2 (some 5) (some 0)).ES =
      toFixed2 ((calculateMetricsRaw [10] [5] 2 (some 5) (some 0)).ES) ∧
    (⟨0, 1, Scenario.maintain, [10, 20], [5], 1, 10, none,
        ⟨0, 0, 3 / 2, none, none, none, none, none, none, none⟩, [], [], [], []⟩ :
        SimState).currentStep <
      (⟨0, 1, Scenario.maintain, [10, 20], [5], 1, 10, none,
        ⟨0, 0, 3 / 2, none, none, none, none, none, none, none⟩, [], [], [], []⟩ :
        SimState).maxSteps ∧
    (runStep (⟨0, 1, Scenario.maintain, [10, 20], [5], 1, 10, none,
        ⟨0, 0, 3 / 2, none, none, none, none, none, none, none⟩, [], [], [], []⟩ :
        SimState)).currentEV = [5, 20] := by
  refine ⟨(claim_C2_record_rounds.1 [10] [5] 2 (some 5) (some 0)).1, by decide, ?_⟩
  have h := claim_C2_record_rounds.2
    (⟨0, 1, Scenario.maintain, [10, 20], [5], 1, 10, none,
      ⟨0, 0, 3 / 2, none, none, none, none, none, none, none⟩, [], [], [], []⟩ : SimState)
    (by decide) rfl
  rw [h]
  norm_num [runStep, List.getD]

/-- C2 counterexample: at PV series [10,25,45,70,100], EV series [8,20,38.1],
actualTime 3, the computed ES is 2.655 but the returned record retains the
rounded 2.66 — the record does not hold the full-precision value. -/
theorem claim_C2_counterexample :
    (calculateMetricsRaw [10, 25, 45, 70, 100] [8, 20, 381 / 10] 3 (some 10) none).ES =
      531 / 200 ∧
    (calculateMetrics [10, 25, 45, 70, 100] [8, 20, 381 / 10] 3 (some 10) none).ES =
      133 / 50 ∧
    (calculateMetrics [10, 25, 45, 70, 100] [8, 20, 381 / 10] 3 (some 10) none).ES ≠
      (calculateMetricsRaw [10, 25, 45, 70, 100] [8, 20, 381 / 10] 3 (some 10) none).ES := by
  have hraw : (calculateMetricsRaw [10, 25, 45, 70, 100] [8, 20, 381 / 10] 3 (some 10)
      none).ES = 531 / 200 := by
    rw [show (calculateMetricsRaw [10, 25, 45, 70, 100] [8, 20, 381 / 10] 3 (some 10) none).ES =
      calculateEarnedSchedule (([8, 20, 381 / 10] : List ℚ).getD 2 0) [10, 25, 45, 70, 100]
      from rfl]
    norm_num [calculateEarnedSchedule, firstExceedIdx, esFrom, eps, abs_of_nonneg, abs_of_nonpos]
  have hrec : (calculateMetrics [10, 25, 45, 70, 100] [8, 20, 381 / 10] 3 (some 10) none).ES =
      133 / 50 := by
    rw [show (calculateMetrics [10, 25, 45, 70, 100] [8, 20, 381 / 10] 3 (some 10) none).ES =
      toFixed2 ((calculateMetricsRaw [10, 25, 45, 70, 100] [8, 20, 381 / 10] 3 (some 10)
        none).ES) from rfl, hraw]
    norm_num [toFixed2]
  exact ⟨hraw, hrec, by rw [hraw, hrec]; norm_num⟩

/-- C3: in every effective step the appended EV value is the previous last EV
plus the scenario's target SPI_t times the PV increment of the new period,
where the target is `min(1.0, prev + 0.05)` under recovery,
`max(0.7, prev − 0.03)` under slippage and the unchanged previous record
SPI_t under maintain; the recovery target never exceeds 1.0 and the slippage
target never drops below 0.7. -/
theorem claim_C3_scenario_ev_growth :
    ∀ s : SimState, s.currentStep < s.maxSteps → s.currentEV ≠ [] →
      s.currentAT + 1 ≤ s.currentPV.length → 2 ≤ s.currentPV.length →
      ((runStep s).currentEV = s.currentEV ++
        [s.currentEV.getD (s.currentEV.length - 1) 0 +
          (match s.scenario with
            | Scenario.recovery => min 1 (s.currentMetrics.SPI_t + 5 / 100)
            | Scenario.slippage => max (7 / 10) (s.currentMetrics.SPI_t - 3 / 100)
            | Scenario.maintain => s.currentMetrics.SPI_t) *
          ((runStep s).currentPV.getD (s.currentAT + 1) 0 -
            (runStep s).currentPV.getD s.currentAT 0)]) ∧
      (s.scenario = Scenario.recovery → min 1 (s.currentMetrics.SPI_t + 5 / 100) ≤ 1) ∧
      (s.scenario = Scenario.slippage → 7 / 10 ≤ max (7 / 10) (s.currentMetrics.SPI_t - 3 / 100)) := by
  intro s h1 _ _ _
  refine ⟨?_, fun _ => min_le_left _ _, fun _ => le_max_left _ _⟩
  cases h2 : s.scenario <;> simp [runStep, not_le.mpr h1, h2]

theorem claim_C3_witness :
    (initSimulation [10, 25, 45, 70] [8, 20, 38, 60] 3 10 2 Scenario.maintain
        false).currentStep <
      (initSimulation [10, 25, 45, 70] [8, 20, 38, 60] 3 10 2 Scenario.maintain
        false).maxSteps ∧
    (runStep (initSimulation [10, 25, 45, 70] [8, 20, 38, 60] 3 10 2 Scenario.maintain
        false)).currentEV = [8, 20, 38, 60, 84] := by
  refine ⟨by decide, ?_⟩
  have h := claim_C3_scenario_ev_growth
    (initSimulation [10, 25, 45, 70] [8, 20, 38, 60] 3 10 2 Scenario.maintain false)
    (by decide) (by decide) (by decide) (by decide)
  rw [h.1]
  norm_num [runStep, initSimulation, calculateMetrics, calculateMetricsRaw, roundMetrics,
    toFixed2, calculateEarnedSchedule, firstExceedIdx, esFrom, eps, List.getD,
    abs_of_nonneg, abs_of_nonpos]

/-- C8: in every effective step, when the PV series has no entry for the new
period exactly one value is appended — the last PV plus the average per-period
increment `(last − first) / (length − 1)` over the entire existing series —
and when the series already covers the new period it is left unchanged. -/
theorem claim_C8_pv_extension :
    ∀ s : SimState, s.currentStep < s.maxSteps → 2 ≤ s.currentPV.length →
      (s.currentPV.length ≤ s.currentAT + 1 →
        (runStep s).currentPV = s.currentPV ++
          [s.currentPV.getD (s.currentPV.length - 1) 0 +
            (s.currentPV.getD (s.currentPV.length - 1) 0 - s.currentPV.getD 0 0) /
              ((s.currentPV.length : ℚ) - 1)]) ∧
      (s.currentAT + 1 < s.currentPV.length → (runStep s).currentPV = s.currentPV) := by
  intro s h1 _
  constructor
  · intro hle
    simp [runStep, not_le.mpr h1, hle]
  · intro hgt
    simp [runStep, not_le.mpr h1, not_le.mpr hgt]

theorem claim_C8_witness :
    (runStep (initSimulation [10, 25, 45, 70] [8, 20, 38, 60] 3 10 2 Scenario.recovery
        false)).currentPV = [10, 25, 45, 70, 90] ∧
    (runStep (initSimulation [10, 25, 45, 70] [8, 20] 1 10 2 Scenario.recovery
        false)).currentPV = [10, 25, 45, 70] := by
  constructor
  · have h := claim_C8_pv_extension
      (initSimulation [10, 25, 45, 70] [8, 20, 38, 60] 3 10 2 Scenario.recovery false)
      (by decide) (by decide)
    rw [h.1 (by decide)]
    norm_num [initSimulation, List.getD]
  · have h := claim_C8_pv_extension
      (initSimulation [10, 25, 45, 70] [8, 20] 1 10 2 Scenario.recovery false)
      (by decide) (by decide)
    rw [h.2 (by decide)]
    rfl

/-- C4: from a freshly initialized simulation, N step calls leave the step
counter at `min N maxSteps`; a step call at or beyond `maxSteps` changes
nothing (no period advance, no PV/EV append, no log append); and each result
log gains exactly one entry per effective step, so its length never exceeds
`maxSteps`. -/
theorem claim_C4_step_counting :
    (∀ (pvValues evValues : List ℚ) (actualTime : ℕ) (milestoneDuration : ℚ) (steps : ℕ)
        (scen : Scenario) (replanEnabled : Bool) (N : ℕ),
      (runStep^[N] (initSimulation pvValues evValues actualTime milestoneDuration steps scen
          replanEnabled)).currentStep = min N steps ∧
      (runStep^[N] (initSimulation pvValues evValues actualTime milestoneDuration steps scen
          replanEnabled)).resultsPeriods.length = min N steps ∧
      (runStep^[N] (initSimulation pvValues evValues actualTime milestoneDuration steps scen
          replanEnabled)).resultsPV.length = min N steps ∧
      (runStep^[N] (initSimulation pvValues evValues actualTime milestoneDuration steps scen
          replanEnabled)).resultsEV.length = min N steps ∧
      (runStep^[N] (initSimulation pvValues evValues actualTime milestoneDuration steps scen
          replanEnabled)).resultsMetrics.length = min N steps ∧
      (runStep^[N] (initSimulation pvValues evValues actualTime milestoneDuration steps scen
          replanEnabled)).resultsPeriods.length ≤ steps) ∧
    (∀ s : SimState, s.maxSteps ≤ s.currentStep → runStep s = s) := by
  constructor
  · intro pvValues evValues actualTime milestoneDuration steps scen replanEnabled N
    obtain ⟨h1, _, h3, h4, h5, h6⟩ :=
      sim_iterate pvValues evValues actualTime milestoneDuration steps scen replanEnabled N
    refine ⟨h1, h3, h4, h5, h6, ?_⟩
    rw [h3]
    exact Nat.min_le_right _ _
  · intro s h
    exact runStep_terminal h

theorem claim_C4_witness :
    (runStep^[3] (initSimulation [10, 25, 45, 70] [8, 20, 38, 60] 3 10 2 Scenario.recovery
        false)).currentStep = min 3 2 ∧
    (runStep^[3] (initSimulation [10, 25, 45, 70] [8, 20, 38, 60] 3 10 2 Scenario.recovery
        false)).resultsPeriods.length = min 3 2 ∧
    runStep (⟨2, 2, Scenario.maintain, [], [], 0, 10, none,
        ⟨0, 0, 0, none, none, none, none, none, none, none⟩, [], [], [], []⟩ : SimState) =
      ⟨2, 2, Scenario.maintain, [], [], 0, 10, none,
        ⟨0, 0, 0, none, none, none, none, none, none, none⟩, [], [], [], []⟩ :=
  ⟨(claim_C4_step_counting.1 [10, 25, 45, 70] [8, 20, 38, 60] 3 10 2 Scenario.recovery
      false 3).1,
    (claim_C4_step_counting.1 [10, 25, 45, 70] [8, 20, 38, 60] 3 10 2 Scenario.recovery
      false 3).2.1,
    claim_C4_step_counting.2 _ (by decide)⟩

end ESReplan